import Mathlib

/-!
The package disklog: frame decoding, connection lifecycle, shutdown and disk logging

A shallow embedding of the Go package `disklog` (files `client-cxn.go`,
`client-cxns.go`, `disk-logger.go`, `networklog.go`) together with the
properties established about it.

Conventions of the embedding

* Go `string` and `[]byte` values are byte sequences: `Bytes = List UInt8`.
* Methods with a pointer receiver become functions that take the receiver's
  value and return the updated value (explicit state passing).
* A Go `error` result is an `Option Error` (`none` is `nil`).
* The socket, the file system and `path.Join` are capabilities of the
  operating system; they appear as the record `OS` and as the scripted results
  of `Read`.
* Calls that leave the package (`cxn.Close()`, `fh.WriteString`, the launch of
  a goroutine) are observed through counters and logs kept in the state.
-/

namespace disklog

/-- Byte sequence: the value of a Go `string` or `[]byte`. -/
abbrev Bytes := List UInt8

/-- The tab byte, the Go string `"\t"`. -/
def tab : UInt8 := 9

/-- The newline byte, the Go string `"\n"`. -/
def newline : UInt8 := 10

/-- The Go string `".log"`. -/
def dotLog : Bytes := [46, 108, 111, 103]

/-- Source constant `cBufferSize = 32 * 1024`: capacity of the buffer handed to
one `Read`, hence the largest `n` a `Read` returns. The properties below hold
for reads of any length. -/
def cBufferSize : Nat := 32 * 1024

/-- Source constant `cMaxMessageSize = 128 * 1024`. -/
def cMaxMessageSize : Nat := 128 * 1024

/-- Lifecycle state of a connection (`iota` order: the zero value is
`csActive`). -/
inductive cxnState
  | csActive
  | csTerminating
  | csTerminated
  deriving DecidableEq, Repr

open cxnState

/-- Numeric value of a state, as given by `iota`. -/
def cxnState.toNat : cxnState → Nat
  | csActive => 0
  | csTerminating => 1
  | csTerminated => 2

/-- Errors returned by the package. -/
inductive Error
  /-- Message `"stream input length %08X is invalid"`. -/
  | invalidLength (size : Nat)
  /-- Message `"stream input requires <logname>\t<message> schema"`. -/
  | schema
  /-- The error of `os.OpenFile` on the given path. -/
  | openFailed (targetPath : Bytes)
  /-- Message `"not started"`. -/
  | notStarted
  deriving DecidableEq, Repr

/-- Operating-system capabilities used by the disk logger: `path.Join` and
whether `os.OpenFile(targetPath, os.O_APPEND, 0666)` succeeds. -/
structure OS where
  pathJoin : Bytes → Bytes → Bytes
  openFile : Bytes → Bool

/-! ## disk-logger.go -/

/-- Struct `diskLogger`. `logs` holds the keys of the map
`map[string]*os.File` (a handle is identified by the path it was opened on);
`written` is the sequence of `fh.WriteString` calls as pairs
(path of the handle, text); `calls` is the sequence of `processMessage`
invocations as pairs (logName, logLine). -/
structure diskLogger where
  basePath : Bytes
  logs : List Bytes
  written : List (Bytes × Bytes)
  calls : List (Bytes × Bytes)
  deriving DecidableEq, Repr

/-- Source: `newDiskLogger`. -/
def newDiskLogger (basePath : Bytes) : diskLogger :=
  { basePath := basePath, logs := [], written := [], calls := [] }

/-- Source: `strings.HasSuffix`. -/
def HasSuffix (s suffix : Bytes) : Bool :=
  suffix.isSuffixOf s

/-- Source: `diskLogger.processMessage`. -/
def processMessage (os : OS) (dl : diskLogger) (logName logLine : Bytes) :
    diskLogger × Option Error :=
  let dl := { dl with calls := dl.calls ++ [(logName, logLine)] }
  let targetPath := os.pathJoin dl.basePath (logName ++ dotLog)
  let exists_ := decide (targetPath ∈ dl.logs)
  if !exists_ && !os.openFile targetPath then
    (dl, some (Error.openFailed targetPath))
  else
    let dl := if !exists_ then { dl with logs := dl.logs ++ [targetPath] } else dl
    let logLine := if !HasSuffix logLine [newline] then logLine ++ [newline] else logLine
    ({ dl with written := dl.written ++ [(targetPath, logLine)] }, none)

/-! ## client-cxn.go -/

/-- The socket `net.Conn` as the connection sees it: the number of `Close`
calls made on it. -/
structure Conn where
  closeCalls : Nat
  deriving DecidableEq, Repr

/-- Source: `net.Conn.Close`. -/
def Conn.Close (c : Conn) : Conn :=
  { c with closeCalls := c.closeCalls + 1 }

/-- Result `(n, err)` of one `cc.cxn.Read(b)`: either the bytes `b[:n]` or an
error. -/
inductive ReadResult
  | data (b : Bytes)
  | err
  deriving DecidableEq, Repr

/-- Source: `net.Conn.Read`, given what the peer makes the call return (`r`): a
`Read` on a socket that was closed locally returns an error whatever the peer
does. -/
def Conn.Read (c : Conn) (r : ReadResult) : ReadResult :=
  if 0 < c.closeCalls then ReadResult.err else r

/-- Struct `clientCxn`. `closed` counts how often the channel `closed` has been
signalled (closed or sent to). -/
structure clientCxn where
  cxn : Conn
  state : cxnState
  closed : Nat
  received : Bytes
  dl : diskLogger
  deriving DecidableEq, Repr

/-- Source: `newClientCxn`: all fields not named in the literal have their zero value. -/
def newClientCxn (cxn : Conn) (dl : diskLogger) : clientCxn :=
  { cxn := cxn, state := csActive, closed := 0, received := [], dl := dl }

/-- Source: `clientCxn.RequestClose`. -/
def RequestClose (cc : clientCxn) : clientCxn :=
  if cc.state = csActive then
    { cc with state := csTerminating, cxn := cc.cxn.Close }
  else cc

/-- Source: `clientCxn.IsCloseRequested`. -/
def IsCloseRequested (cc : clientCxn) : Bool :=
  cc.state != csActive

/-- The receive `<- cc.closed` can complete: the channel has been signalled. -/
def chanReady (cc : clientCxn) : Bool :=
  decide (0 < cc.closed)

/-- Source: `clientCxn.WaitForClose`. The connection is only read. The result is
`true` when the call returns: at once when the state is `csTerminated`,
otherwise when the receive `<- cc.closed` completes, which needs the channel to
have been signalled. `false` means the caller stays blocked on the channel. -/
def WaitForClose (cc : clientCxn) : Bool :=
  if cc.state = csTerminated then true
  else chanReady cc

/-- Source: `binary.BigEndian.Uint32`. -/
def Uint32 (b : Bytes) : Nat :=
  (b.getD 3 0).toNat ||| ((b.getD 2 0).toNat <<< 8) ||| ((b.getD 1 0).toNat <<< 16) |||
    ((b.getD 0 0).toNat <<< 24)

/-- Source: `strings.Index(s, "\t")` for a one-byte separator: position of the first
occurrence, `-1` when there is none. -/
def Index (s : Bytes) (sep : UInt8) : Int :=
  if sep ∈ s then (s.indexOf sep : Nat) else -1

/-- Source: `clientCxn.consume`: returns the connection (whose disk logger may have
been used), `processed` and `err`. -/
def consume (os : OS) (cc : clientCxn) : clientCxn × Nat × Option Error :=
  if cc.received.length < 4 then (cc, 0, none)
  else
    let size := Uint32 (cc.received.take 4)
    if size > cMaxMessageSize then (cc, 0, some (Error.invalidLength size))
    else if cc.received.length < 4 + size then (cc, 0, none)
    else
      let s := (cc.received.take (4 + size)).drop 4
      let cutPoint := Index s tab
      if cutPoint < 0 then (cc, 0, some Error.schema)
      else
        let (dl, err) := processMessage os cc.dl (s.take cutPoint.toNat) (s.drop (cutPoint.toNat + 1))
        let cc := { cc with dl := dl }
        match err with
        | some e => (cc, 0, some e)
        | none => (cc, size + 4, none)

/-- The inner `for` loop of `clientCxn.run` (lines 99-111), with a bound on the
number of iterations; `drain` supplies a bound that is never reached. -/
def consumeLoop (os : OS) : Nat → clientCxn → clientCxn
  | 0, cc => cc
  | fuel + 1, cc =>
    match consume os cc with
    | (cc, processed, err) =>
      let cc := if err.isSome then { cc with cxn := cc.cxn.Close } else cc
      if processed = 0 then cc
      else consumeLoop os fuel { cc with received := cc.received.drop processed }

/-- The inner loop of `run`, run to its `break`. -/
def drain (os : OS) (cc : clientCxn) : clientCxn :=
  consumeLoop os (cc.received.length + 1) cc

/-- Source: `clientCxn.run` against a script of `Read` results. When the script is
used up the loop is blocked in `Read`; the loop has exited exactly when it has
set the state to `csTerminated`. -/
def run (os : OS) : clientCxn → List ReadResult → clientCxn
  | cc, [] => cc
  | cc, r :: rs =>
    match cc.cxn.Read r with
    | ReadResult.err => { cc with state := csTerminated }
    | ReadResult.data b => run os (drain os { cc with received := cc.received ++ b }) rs

/-! ## client-cxns.go -/

/-- Struct `clientCxns`. -/
structure clientCxns where
  cxns : List clientCxn
  deriving DecidableEq, Repr

/-- Source: `newClientCxns`. -/
def newClientCxns : clientCxns :=
  { cxns := [] }

/-- Source: `clientCxns.processAllClients` over the connections from position `i` on.
`op` returns `none` when it never returns. The result is the connections after
the pass and the positions on which `op` was invoked. -/
def processAllClients (op : clientCxn → Option clientCxn) :
    List clientCxn → Nat → Option (List clientCxn × List Nat)
  | [], _ => some ([], [])
  | cxn :: rest, i =>
    if !IsCloseRequested cxn then
      match op cxn with
      | none => none
      | some cxn1 =>
        match processAllClients op rest (i + 1) with
        | none => none
        | some (rest1, hits) => some (cxn1 :: rest1, i :: hits)
    else
      match processAllClients op rest (i + 1) with
      | none => none
      | some (rest1, hits) => some (cxn :: rest1, hits)

/-- What `terminateAll` did: the positions phase 1 called `RequestClose` on,
the positions phase 2 called `WaitForClose` on, the connections as they are
when it returns, and the registry it leaves. -/
structure Shutdown where
  requested : List Nat
  waited : List Nat
  conns : List clientCxn
  registry : clientCxns
  deriving DecidableEq, Repr

/-- Source: `clientCxns.terminateAll`, with no other goroutine scheduled while it
runs. `none` means it never returns. The final loop closes the socket of every
registered connection. -/
def terminateAll (ccs : clientCxns) : Option Shutdown :=
  match processAllClients (fun cxn => some (RequestClose cxn)) ccs.cxns 0 with
  | none => none
  | some (cxns1, requested) =>
    match processAllClients (fun cxn => if WaitForClose cxn then some cxn else none) cxns1 0 with
    | none => none
    | some (cxns2, waited) =>
      some { requested := requested, waited := waited,
             conns := cxns2.map (fun cxn => { cxn with cxn := cxn.cxn.Close }),
             registry := { cxns := [] } }

/-! ## networklog.go -/

/-- Struct `diskLogServer`: the flags `StopServer` uses. `terminations` counts
the launches of `go func() { dls.onTerminate() }()`. -/
structure diskLogServer where
  started : Bool
  terminating : Bool
  terminations : Nat
  deriving DecidableEq, Repr

/-- Source: `NewDiskLogServer`. -/
def NewDiskLogServer : diskLogServer :=
  { started := false, terminating := false, terminations := 0 }

/-- Source: `diskLogServer.StopServer`. -/
def StopServer (dls : diskLogServer) : diskLogServer × Option Error :=
  if !dls.started then (dls, some Error.notStarted)
  else
    let isTerminating := dls.terminating
    let dls := { dls with terminating := true }
    let dls := if !isTerminating then { dls with terminations := dls.terminations + 1 } else dls
    (dls, none)

/-! ## Wire encoding and operation sequences -/

/-- The sender's side of the wire format, `uint32-big-endian(v)`: the four bytes
of `v`, most significant first. -/
def PutUint32 (v : Nat) : Bytes :=
  [UInt8.ofNat (v >>> 24), UInt8.ofNat (v >>> 16), UInt8.ofNat (v >>> 8), UInt8.ofNat v]

/-- The wire encoding of one frame as the specification states it:
`uint32-big-endian(len(body)) || body`. -/
def frame (body : Bytes) : Bytes :=
  PutUint32 body.length ++ body

/-- The body of a record as the specification states it:
`logName + "\t" + message`. -/
def body (r : Bytes × Bytes) : Bytes :=
  r.1 ++ tab :: r.2

/-- The wire encoding of a list of records as the specification states it: the
frames one after the other. -/
def encode (rs : List (Bytes × Bytes)) : Bytes :=
  (rs.map (fun r => frame (body r))).flatten

/-- The disk logger after the records `rs` were handed to it in order. -/
def logAll (os : OS) (dl : diskLogger) (rs : List (Bytes × Bytes)) : diskLogger :=
  rs.foldl (fun d r => (processMessage os d r.1 r.2).1) dl

/-- An operation on a connection: a method call by another goroutine, or a step
of the connection's own read loop (one iteration that received `b`, or the
failing `Read` that makes the loop exit). -/
inductive Op
  | requestClose
  | isCloseRequested
  | waitForClose
  | readData (b : Bytes)
  | readErr
  deriving DecidableEq, Repr

/-- Effect of an operation on the connection. The read loop runs once, so its
steps exist only while the loop has not exited. -/
def step (os : OS) (cc : clientCxn) : Op → clientCxn
  | Op.requestClose => RequestClose cc
  | Op.isCloseRequested => cc
  | Op.waitForClose => cc
  | Op.readData b => if cc.state = csTerminated then cc else run os cc [ReadResult.data b]
  | Op.readErr => if cc.state = csTerminated then cc else run os cc [ReadResult.err]

/-- Effect of a sequence of operations. -/
def exec (os : OS) (cc : clientCxn) (ops : List Op) : clientCxn :=
  ops.foldl (step os) cc

/-- An operating system on which every open succeeds; `path.Join` of a
directory and a file name puts a slash between them, and an empty directory is
left out. -/
def okOS : OS :=
  { pathJoin := fun dir name => if dir = [] then name else dir ++ 47 :: name,
    openFile := fun _ => true }

/-- The Go string `"app"`. -/
def sApp : Bytes := [97, 112, 112]

/-- The Go string `"Hi\n"`. -/
def sHi : Bytes := [72, 105, 10]

/-- The Go string `"app\tHi\n"` (seven bytes). -/
def sAppHi : Bytes := [97, 112, 112, 9, 72, 105, 10]

/-- The nine characters `app\tHi\n` with the escapes left as written (two
backslashes, no tab, no newline). -/
def sAppHiRaw : Bytes := [97, 112, 112, 92, 116, 72, 105, 92, 110]

/-- A fresh connection on an open socket, logging under the directory `d`. -/
def fresh (d : Bytes) : clientCxn :=
  newClientCxn { closeCalls := 0 } (newDiskLogger d)

/-! # Lemmas -/

theorem or_shiftLeft_eq (lo a i : Nat) (h : lo < 2 ^ i) : lo ||| (a <<< i) = a * 2 ^ i + lo := by
  rw [Nat.shiftLeft_eq, Nat.or_comm, Nat.mul_comm a, ← Nat.mul_add_lt_is_or h]

theorem Uint32_eq (b0 b1 b2 b3 : UInt8) (rest : Bytes) :
    Uint32 ((b0 :: b1 :: b2 :: b3 :: rest).take 4) =
      b0.toNat * 2 ^ 24 + b1.toNat * 2 ^ 16 + b2.toNat * 2 ^ 8 + b3.toNat := by
  have h0 : b0.toNat < 2 ^ 8 := b0.toNat_lt
  have h1 : b1.toNat < 2 ^ 8 := b1.toNat_lt
  have h2 : b2.toNat < 2 ^ 8 := b2.toNat_lt
  have h3 : b3.toNat < 2 ^ 8 := b3.toNat_lt
  simp only [Uint32, List.take, List.getD_cons_zero, List.getD_cons_succ]
  rw [or_shiftLeft_eq _ _ 8 h3, or_shiftLeft_eq _ _ 16 (by omega), or_shiftLeft_eq _ _ 24 (by omega)]
  omega

theorem Uint32_PutUint32 (v : Nat) (hv : v < 2 ^ 32) (rest : Bytes) :
    Uint32 ((PutUint32 v ++ rest).take 4) = v := by
  simp only [PutUint32, List.cons_append, List.nil_append]
  rw [Uint32_eq]
  have e : ∀ k : Nat, (UInt8.ofNat k).toNat = k % 256 := fun k => rfl
  simp only [e, Nat.shiftRight_eq_div_pow]
  omega

/-! ## Facts about `processMessage` and `consume` -/

theorem processMessage_calls (os : OS) (dl : diskLogger) (n l : Bytes) :
    (processMessage os dl n l).1.calls = dl.calls ++ [(n, l)] := by
  unfold processMessage
  simp only
  split
  · rfl
  · split <;> rfl

theorem processMessage_basePath (os : OS) (dl : diskLogger) (n l : Bytes) :
    (processMessage os dl n l).1.basePath = dl.basePath := by
  unfold processMessage
  simp only
  split
  · rfl
  · split <;> rfl

theorem processMessage_ok (os : OS) (hos : ∀ p, os.openFile p = true) (dl : diskLogger)
    (n l : Bytes) : (processMessage os dl n l).2 = none := by
  unfold processMessage
  simp [hos]

theorem consume_frame_fields (os : OS) (cc : clientCxn) :
    (consume os cc).1.cxn = cc.cxn ∧ (consume os cc).1.state = cc.state ∧
      (consume os cc).1.closed = cc.closed ∧ (consume os cc).1.received = cc.received := by
  unfold consume
  simp only
  split
  · simp
  · split
    · simp
    · split
      · simp
      · split
        · simp
        · split <;> simp

theorem consume_processed (os : OS) (cc : clientCxn) (h : (consume os cc).2.1 ≠ 0) :
    0 < (consume os cc).2.1 ∧ (consume os cc).2.1 ≤ cc.received.length ∧
      (consume os cc).2.2 = none := by
  unfold consume at h ⊢
  simp only at h ⊢
  split at h
  · simp at h
  · split at h
    · simp at h
    · split at h
      · simp at h
      · split at h
        · simp at h
        · rename_i h1 h2 h3 h4
          simp only [h1, h2, h3, h4, if_false]
          split at h
          · simp at h
          · rename_i e
            simp only [e]
            refine ⟨by omega, by omega, trivial⟩

theorem consume_error_processed (os : OS) (cc : clientCxn) (h : (consume os cc).2.2 ≠ none) :
    (consume os cc).2.1 = 0 := by
  by_contra h0
  exact h (consume_processed os cc h0).2.2

/-! ## The inner loop -/

theorem consumeLoop_succ (os : OS) (fuel : Nat) (cc : clientCxn) :
    consumeLoop os (fuel + 1) cc =
      if (consume os cc).2.1 = 0 then
        (if (consume os cc).2.2.isSome then
          { (consume os cc).1 with cxn := (consume os cc).1.cxn.Close }
        else (consume os cc).1)
      else
        consumeLoop os fuel
          { cc with dl := (consume os cc).1.dl,
                    received := cc.received.drop (consume os cc).2.1 } := by
  have hp := consume_processed os cc
  have hf := consume_frame_fields os cc
  rw [consumeLoop]
  by_cases h0 : (consume os cc).2.1 = 0
  · simp only [h0, if_true]
  · simp only [h0, if_false, (hp h0).2.2, Option.isSome_none]
    congr 1
    simp [hf]

theorem consumeLoop_state (os : OS) (fuel : Nat) (cc : clientCxn) :
    (consumeLoop os fuel cc).state = cc.state ∧ (consumeLoop os fuel cc).closed = cc.closed ∧
      cc.cxn.closeCalls ≤ (consumeLoop os fuel cc).cxn.closeCalls := by
  induction fuel generalizing cc with
  | zero => simp [consumeLoop]
  | succ n ih =>
    have hf := consume_frame_fields os cc
    rw [consumeLoop_succ]
    split
    · split
      · simp [hf, Conn.Close]
      · simp [hf]
    · exact ih { cc with dl := (consume os cc).1.dl,
                         received := cc.received.drop (consume os cc).2.1 }

/-- The bound on the inner loop is never reached: any two bounds above the
length of the buffer give the same result. -/
theorem consumeLoop_fuel (os : OS) (n m : Nat) (cc : clientCxn)
    (hn : cc.received.length < n) (hm : cc.received.length < m) :
    consumeLoop os n cc = consumeLoop os m cc := by
  induction n generalizing cc m with
  | zero => omega
  | succ n ih =>
    obtain ⟨m, rfl⟩ : ∃ k, m = k + 1 := ⟨m - 1, by omega⟩
    rw [consumeLoop_succ, consumeLoop_succ]
    split
    · rfl
    · rename_i h0
      have hp := consume_processed os cc h0
      apply ih
      · simp only [List.length_drop]; omega
      · simp only [List.length_drop]; omega

/-- The inner loop run to its `break` is the bounded loop under any bound above
the length of the buffer. -/
theorem drain_eq_consumeLoop (os : OS) (n : Nat) (cc : clientCxn)
    (hn : cc.received.length < n) : consumeLoop os n cc = drain os cc :=
  consumeLoop_fuel os n _ cc hn (Nat.lt_succ_self _)

theorem Index_neg_iff (s : Bytes) (sep : UInt8) : Index s sep < 0 ↔ sep ∉ s := by
  unfold Index
  split
  · rename_i h
    simp only [h, not_true_eq_false, iff_false, not_lt]
    exact Int.ofNat_nonneg _
  · rename_i h
    simp [h]

/-- The four outcomes of `consume` when the disk logger accepts the record. -/
theorem consume_cases (os : OS) (cc : clientCxn)
    (hok : ∀ n l, (processMessage os cc.dl n l).2 = none) :
    (cc.received.length < 4 ∧ consume os cc = (cc, 0, none)) ∨
    (4 ≤ cc.received.length ∧ cMaxMessageSize < Uint32 (cc.received.take 4) ∧
      consume os cc = (cc, 0, some (Error.invalidLength (Uint32 (cc.received.take 4))))) ∨
    (4 ≤ cc.received.length ∧ Uint32 (cc.received.take 4) ≤ cMaxMessageSize ∧
      cc.received.length < 4 + Uint32 (cc.received.take 4) ∧ consume os cc = (cc, 0, none)) ∨
    (4 ≤ cc.received.length ∧ Uint32 (cc.received.take 4) ≤ cMaxMessageSize ∧
      4 + Uint32 (cc.received.take 4) ≤ cc.received.length ∧
      tab ∉ (cc.received.take (4 + Uint32 (cc.received.take 4))).drop 4 ∧
      consume os cc = (cc, 0, some Error.schema)) ∨
    (4 ≤ cc.received.length ∧ Uint32 (cc.received.take 4) ≤ cMaxMessageSize ∧
      4 + Uint32 (cc.received.take 4) ≤ cc.received.length ∧
      tab ∈ (cc.received.take (4 + Uint32 (cc.received.take 4))).drop 4 ∧
      (consume os cc).2 = (Uint32 (cc.received.take 4) + 4, none)) := by
  by_cases h1 : cc.received.length < 4
  · left
    exact ⟨h1, by simp [consume, h1]⟩
  right
  by_cases h2 : cMaxMessageSize < Uint32 (cc.received.take 4)
  · left
    exact ⟨by omega, h2, by simp [consume, h1, h2]⟩
  right
  by_cases h3 : cc.received.length < 4 + Uint32 (cc.received.take 4)
  · left
    exact ⟨by omega, by omega, h3, by simp [consume, h1, h2, h3]⟩
  right
  by_cases h4 : tab ∈ (cc.received.take (4 + Uint32 (cc.received.take 4))).drop 4
  · right
    refine ⟨by omega, by omega, by omega, h4, ?_⟩
    have h5 : ¬ Index ((cc.received.take (4 + Uint32 (cc.received.take 4))).drop 4) tab < 0 := by
      rw [Index_neg_iff]; simpa using h4
    unfold consume
    simp only [h1, h2, h3, h5, if_false, gt_iff_lt]
    rw [hok]
  · left
    have h5 : Index ((cc.received.take (4 + Uint32 (cc.received.take 4))).drop 4) tab < 0 := by
      rw [Index_neg_iff]; exact h4
    refine ⟨by omega, by omega, by omega, h4, ?_⟩
    unfold consume
    simp only [h1, h2, h3, h5, if_false, if_true, gt_iff_lt]

/-! ## Frames on the wire -/

theorem logAll_calls (os : OS) (dl : diskLogger) (rs : List (Bytes × Bytes)) :
    (logAll os dl rs).calls = dl.calls ++ rs := by
  induction rs generalizing dl with
  | nil => simp [logAll]
  | cons r rs ih =>
    have := ih (processMessage os dl r.1 r.2).1
    simp only [logAll, List.foldl_cons] at this ⊢
    rw [this, processMessage_calls]
    simp

theorem logAll_append (os : OS) (dl : diskLogger) (rs1 rs2 : List (Bytes × Bytes)) :
    logAll os dl (rs1 ++ rs2) = logAll os (logAll os dl rs1) rs2 := by
  simp [logAll, List.foldl_append]

theorem PutUint32_length (v : Nat) : (PutUint32 v).length = 4 := rfl

theorem frame_length (b : Bytes) : (frame b).length = 4 + b.length := by
  simp [frame, PutUint32_length]

theorem Index_body (r : Bytes × Bytes) (h : tab ∉ r.1) : Index (body r) tab = (r.1.length : Nat) := by
  unfold Index body
  rw [if_pos (by simp)]
  rw [List.indexOf_append_of_not_mem h, List.indexOf_cons_self]
  simp

theorem body_take (r : Bytes × Bytes) : (body r).take r.1.length = r.1 := by
  simp [body]

theorem body_drop (r : Bytes × Bytes) : (body r).drop (r.1.length + 1) = r.2 := by
  simp [body]

/-- On a buffer that starts with a whole valid frame `consume` hands the record
to the disk logger and reports the frame's length. -/
theorem consume_frame (os : OS) (hos : ∀ p, os.openFile p = true) (cc : clientCxn)
    (r : Bytes × Bytes) (rest : Bytes) (hr : tab ∉ r.1) (hlen : (body r).length ≤ 131072)
    (hrec : cc.received = frame (body r) ++ rest) :
    consume os cc =
      ({ cc with dl := (processMessage os cc.dl r.1 r.2).1 }, (body r).length + 4, none) := by
  have hN : Uint32 (cc.received.take 4) = (body r).length := by
    rw [hrec, frame, List.append_assoc]
    exact Uint32_PutUint32 _ (by omega) _
  have hs : (cc.received.take (4 + (body r).length)).drop 4 = body r := by
    rw [hrec, frame, List.append_assoc, Nat.add_comm]
    simp [PutUint32]
  have hl : ¬ cc.received.length < 4 + (body r).length := by
    rw [hrec]; simp [frame_length]
  have hl4 : ¬ cc.received.length < 4 := by omega
  have hI := Index_body r hr
  have hmax : ¬ (body r).length > cMaxMessageSize := by
    simp only [cMaxMessageSize]; omega
  unfold consume
  simp only [hN, hs, hl, hl4, hmax, hI, if_false, Int.toNat_ofNat, body_take, body_drop,
    processMessage_ok os hos]
  simp

/-- On a buffer that holds only the beginning of a valid frame `consume` waits
for more data. -/
theorem consume_partial (os : OS) (cc : clientCxn) (b fut more : Bytes)
    (hlen : b.length ≤ 131072) (hpre : cc.received ++ fut = frame b ++ more)
    (hshort : cc.received.length < (frame b).length) :
    consume os cc = (cc, 0, none) := by
  by_cases h4 : cc.received.length < 4
  · simp [consume, h4]
  · have htake : cc.received.take 4 = (frame b ++ more).take 4 := by
      rw [← hpre, List.take_append_of_le_length (by omega)]
    have hN : Uint32 (cc.received.take 4) = b.length := by
      rw [htake, frame, List.append_assoc]
      exact Uint32_PutUint32 _ (by omega) _
    rw [frame_length] at hshort
    have hmax : ¬ b.length > cMaxMessageSize := by
      simp only [cMaxMessageSize]; omega
    unfold consume
    simp only [h4, hN, hmax, hshort, if_false, if_true]

theorem encode_cons (r : Bytes × Bytes) (rs : List (Bytes × Bytes)) :
    encode (r :: rs) = frame (body r) ++ encode rs := by
  simp [encode]

theorem encode_append (rs1 rs2 : List (Bytes × Bytes)) :
    encode (rs1 ++ rs2) = encode rs1 ++ encode rs2 := by
  simp [encode]

/-- The inner loop on a buffer made of whole valid frames followed by a rest
on which `consume` waits: every record is handed over, in order, and the rest
stays in the buffer. -/
theorem consumeLoop_frames (os : OS) (hos : ∀ p, os.openFile p = true)
    (rs : List (Bytes × Bytes)) (hv : ∀ r ∈ rs, tab ∉ r.1 ∧ (body r).length ≤ 131072)
    (tail : Bytes) (htail : ∀ c : clientCxn, c.received = tail → consume os c = (c, 0, none))
    (fuel : Nat) (hfuel : rs.length < fuel) (cc : clientCxn)
    (hrec : cc.received = encode rs ++ tail) :
    consumeLoop os fuel cc = { cc with received := tail, dl := logAll os cc.dl rs } := by
  induction rs generalizing cc fuel with
  | nil =>
    obtain ⟨fuel, rfl⟩ : ∃ k, fuel = k + 1 := ⟨fuel - 1, by simp at hfuel; omega⟩
    have hrec1 : cc.received = tail := by simpa [encode] using hrec
    rw [consumeLoop_succ, htail cc hrec1]
    simp [logAll, ← hrec1]
  | cons r rs ih =>
    obtain ⟨fuel, rfl⟩ : ∃ k, fuel = k + 1 := ⟨fuel - 1, by simp at hfuel; omega⟩
    have hr := hv r (List.mem_cons_self _ _)
    rw [encode_cons, List.append_assoc] at hrec
    rw [consumeLoop_succ, consume_frame os hos cc r _ hr.1 hr.2 hrec]
    simp only [Nat.add_eq_zero, OfNat.ofNat_ne_zero, and_false, if_false]
    have hdrop : cc.received.drop ((body r).length + 4) = encode rs ++ tail := by
      rw [hrec, Nat.add_comm, ← frame_length]
      simp
    rw [ih (fun x hx => hv x (List.mem_cons_of_mem _ hx)) fuel (by simp at hfuel; omega)
      { cc with dl := (processMessage os cc.dl r.1 r.2).1,
                received := cc.received.drop ((body r).length + 4) } hdrop]
    simp [logAll]

/-- Any beginning of a stream of valid frames is a number of whole frames
followed by a strict beginning of the next frame. -/
theorem encode_begin_split (rs : List (Bytes × Bytes)) (p fut : Bytes)
    (h : p ++ fut = encode rs) :
    ∃ rs1 rs2 tail, rs = rs1 ++ rs2 ∧ p = encode rs1 ++ tail ∧ tail ++ fut = encode rs2 ∧
      (tail = [] ∨ ∃ r rs3, rs2 = r :: rs3 ∧ tail.length < (frame (body r)).length) := by
  induction rs generalizing p with
  | nil =>
    refine ⟨[], [], [], rfl, ?_, ?_, Or.inl rfl⟩
    · simp [encode] at h ⊢; exact h.1
    · simp [encode] at h ⊢; exact h.2
  | cons r rs ih =>
    by_cases hp : p.length < (frame (body r)).length
    · exact ⟨[], r :: rs, p, rfl, by simp [encode], h, Or.inr ⟨r, rs, rfl, hp⟩⟩
    · rw [encode_cons] at h
      have h1 : p = frame (body r) ++ p.drop (frame (body r)).length := by
        have := congrArg (List.take (frame (body r)).length) h
        rw [List.take_append_of_le_length (by omega), List.take_left] at this
        conv_lhs => rw [← List.take_append_drop (frame (body r)).length p, this]
      have h2 : p.drop (frame (body r)).length ++ fut = encode rs := by
        have := congrArg (List.drop (frame (body r)).length) h
        rw [List.drop_append_of_le_length (by omega), List.drop_left] at this
        exact this
      obtain ⟨rs1, rs2, tail, e1, e2, e3, e4⟩ := ih _ h2
      refine ⟨r :: rs1, rs2, tail, by simp [e1], ?_, e3, e4⟩
      rw [encode_cons, List.append_assoc, ← e2]
      exact h1

theorem encode_length_ge (rs : List (Bytes × Bytes)) : rs.length ≤ (encode rs).length := by
  induction rs with
  | nil => simp
  | cons r rs ih =>
    rw [encode_cons, List.length_append, frame_length, List.length_cons]
    omega

/-- The read loop on a stream of valid frames, however the stream is cut into
reads: every record is handed to the disk logger, in order, and the buffer ends
empty. -/
theorem run_frames (os : OS) (hos : ∀ p, os.openFile p = true) (chunks : List Bytes)
    (rs : List (Bytes × Bytes)) (hv : ∀ r ∈ rs, tab ∉ r.1 ∧ (body r).length ≤ 131072)
    (cc : clientCxn) (hopen : cc.cxn.closeCalls = 0)
    (hcond : cc.received = [] ∨
      ∃ r rs3, rs = r :: rs3 ∧ cc.received.length < (frame (body r)).length)
    (hstream : cc.received ++ chunks.flatten = encode rs) :
    run os cc (chunks.map ReadResult.data) =
      { cc with received := [], dl := logAll os cc.dl rs } := by
  induction chunks generalizing rs cc with
  | nil =>
    simp only [List.flatten_nil, List.append_nil] at hstream
    have hrs : rs = [] := by
      cases rs with
      | nil => rfl
      | cons r rs3 =>
        exfalso
        have hl : (frame (body r)).length ≤ cc.received.length := by
          rw [hstream, encode_cons, List.length_append]; omega
        rw [frame_length] at hl
        rcases hcond with h | ⟨r', rs', e, h⟩
        · rw [h] at hl; simp at hl
        · cases e
          rw [frame_length] at h; omega
    subst hrs
    have : cc.received = [] := by simpa [encode] using hstream
    simp [run, logAll, ← this]
  | cons c cs ih =>
    have hread : cc.cxn.Read (ReadResult.data c) = ReadResult.data c := by
      simp [Conn.Read, hopen]
    simp only [List.map_cons, run, hread]
    have hstream1 : (cc.received ++ c) ++ cs.flatten = encode rs := by
      rw [← hstream]; simp
    obtain ⟨rs1, rs2, tail, e1, e2, e3, e4⟩ := encode_begin_split rs _ _ hstream1
    have hv1 : ∀ r ∈ rs1, tab ∉ r.1 ∧ (body r).length ≤ 131072 :=
      fun r hr => hv r (by rw [e1]; exact List.mem_append_left _ hr)
    have hv2 : ∀ r ∈ rs2, tab ∉ r.1 ∧ (body r).length ≤ 131072 :=
      fun r hr => hv r (by rw [e1]; exact List.mem_append_right _ hr)
    have htail : ∀ x : clientCxn, x.received = tail → consume os x = (x, 0, none) := by
      intro x hx
      rcases e4 with h | ⟨r, rs3, e, h⟩
      · simp [consume, hx, h]
      · apply consume_partial os x (body r) cs.flatten (encode rs3)
          (hv2 r (by rw [e]; exact List.mem_cons_self _ _)).2
        · rw [hx, e3, e, encode_cons]
        · rw [hx]; exact h
    have hfuel : rs1.length < (cc.received ++ c).length + 1 := by
      have := encode_length_ge rs1
      rw [e2, List.length_append]; omega
    have hdrain : drain os { cc with received := cc.received ++ c } =
        { cc with received := tail, dl := logAll os cc.dl rs1 } := by
      unfold drain
      rw [consumeLoop_frames os hos rs1 hv1 tail htail _ hfuel _ e2]
    rw [hdrain, ih rs2 hv2 { cc with received := tail, dl := logAll os cc.dl rs1 } hopen e4 e3,
      e1, logAll_append]

/-! ## More facts used by the claims -/

theorem drain_state (os : OS) (cc : clientCxn) :
    (drain os cc).state = cc.state ∧ (drain os cc).closed = cc.closed ∧
      cc.cxn.closeCalls ≤ (drain os cc).cxn.closeCalls :=
  consumeLoop_state os _ cc

theorem run_closed (os : OS) (cc : clientCxn) (rs : List ReadResult) :
    (run os cc rs).closed = cc.closed := by
  induction rs generalizing cc with
  | nil => rfl
  | cons r rs ih =>
    rw [run]
    split
    · rfl
    · rw [ih, (drain_state os _).2.1]

theorem run_single_state (os : OS) (cc : clientCxn) (r : ReadResult) :
    (run os cc [r]).state = cc.state ∨ (run os cc [r]).state = csTerminated := by
  rw [run]
  split
  · right; rfl
  · left
    rw [run, (drain_state os _).1]

theorem toNat_le_terminated (s : cxnState) : s.toNat ≤ csTerminated.toNat := by
  cases s <;> decide

theorem step_state_le (os : OS) (cc : clientCxn) (op : Op) :
    cc.state.toNat ≤ (step os cc op).state.toNat := by
  cases op with
  | requestClose =>
    simp only [step, RequestClose]
    split
    · rename_i h; rw [h]; simp [cxnState.toNat]
    · exact Nat.le_refl _
  | isCloseRequested => exact Nat.le_refl _
  | waitForClose => exact Nat.le_refl _
  | readData b =>
    simp only [step]
    split
    · exact Nat.le_refl _
    · rcases run_single_state os cc (ReadResult.data b) with h | h
      · rw [h]
      · rw [h]; exact toNat_le_terminated _
  | readErr =>
    simp only [step]
    split
    · exact Nat.le_refl _
    · rcases run_single_state os cc ReadResult.err with h | h
      · rw [h]
      · rw [h]; exact toNat_le_terminated _

theorem exec_state_le (os : OS) (cc : clientCxn) (ops : List Op) :
    cc.state.toNat ≤ (exec os cc ops).state.toNat := by
  induction ops generalizing cc with
  | nil => exact Nat.le_refl _
  | cons op ops ih =>
    simp only [exec, List.foldl_cons]
    exact Nat.le_trans (step_state_le os cc op) (ih _)

theorem exec_append (os : OS) (cc : clientCxn) (ops1 ops2 : List Op) :
    exec os cc (ops1 ++ ops2) = exec os (exec os cc ops1) ops2 := by
  simp [exec, List.foldl_append]

theorem toNat_eq_two (s : cxnState) (h : 2 ≤ s.toNat) : s = csTerminated := by
  cases s <;> simp [cxnState.toNat] at h ⊢

theorem RequestClose_twice (cc : clientCxn) : RequestClose (RequestClose cc) = RequestClose cc := by
  unfold RequestClose
  split <;> simp_all

theorem RequestClose_iterate (cc : clientCxn) (n : Nat) (hn : 1 ≤ n) :
    RequestClose^[n] cc = RequestClose cc := by
  induction n with
  | zero => omega
  | succ n ih =>
    rcases Nat.eq_zero_or_pos n with h0 | hpos
    · subst h0; rfl
    · rw [Function.iterate_succ_apply', ih hpos, RequestClose_twice]

/-! # The claims -/

/-- C8. Connection lifecycle is monotonic. A new connection starts Active; no
operation (RequestClose, IsCloseRequested, WaitForClose, a read-loop iteration,
the read loop's exit) moves the state backward in the order
Active < Terminating < Terminated, along any sequence of operations; a
Terminated connection stays Terminated under every sequence of operations; and
IsCloseRequested returns true exactly when the state is Terminating or
Terminated. -/
theorem lifecycle_monotonic :
    (∀ (cxn : Conn) (dl : diskLogger), (newClientCxn cxn dl).state = csActive) ∧
    (∀ (os : OS) (cc : clientCxn) (op : Op), cc.state.toNat ≤ (step os cc op).state.toNat) ∧
    (∀ (os : OS) (cc : clientCxn) (ops1 ops2 : List Op),
      (exec os cc ops1).state.toNat ≤ (exec os cc (ops1 ++ ops2)).state.toNat) ∧
    (∀ (os : OS) (cc : clientCxn) (ops : List Op),
      cc.state = csTerminated → (exec os cc ops).state = csTerminated) ∧
    (∀ cc : clientCxn,
      IsCloseRequested cc = true ↔ (cc.state = csTerminating ∨ cc.state = csTerminated)) := by
  refine ⟨fun _ _ => rfl, step_state_le, ?_, ?_, ?_⟩
  · intro os cc ops1 ops2
    rw [exec_append]
    exact exec_state_le os _ ops2
  · intro os cc ops h
    apply toNat_eq_two
    have := exec_state_le os cc ops
    rw [h] at this
    exact this
  · intro cc
    unfold IsCloseRequested
    cases cc.state <;> simp

/-- Witness for C8: a Terminated connection stays Terminated under a sequence
of operations. -/
theorem lifecycle_monotonic_witness :
    (run okOS (fresh []) [ReadResult.err]).state = csTerminated ∧
    (exec okOS (run okOS (fresh []) [ReadResult.err])
      [Op.requestClose, Op.readData [0, 0, 0, 0], Op.waitForClose, Op.readErr]).state
        = csTerminated :=
  ⟨by decide, lifecycle_monotonic.2.2.2.1 okOS _ _ (by decide)⟩


/-- C5, as stated, fails: a new connection whose read loop has rejected a frame
(declared length `0x00040000`) has had its socket closed by the read loop while
the state is still Active; RequestClose, called once or twice, then closes the
socket again, and after the read loop's exit the state is Terminated with two
Close calls on the socket, not one. -/
theorem RequestClose_after_rejected_frame :
    (exec okOS (fresh []) [Op.readData [0, 4, 0, 0]]).state = csActive ∧
    (exec okOS (fresh []) [Op.readData [0, 4, 0, 0]]).cxn.closeCalls = 1 ∧
    (exec okOS (fresh []) [Op.readData [0, 4, 0, 0], Op.requestClose, Op.readErr]).state
      = csTerminated ∧
    (exec okOS (fresh []) [Op.readData [0, 4, 0, 0], Op.requestClose, Op.readErr]).cxn.closeCalls
      = 2 ∧
    (exec okOS (fresh [])
      [Op.readData [0, 4, 0, 0], Op.requestClose, Op.requestClose, Op.readErr]).state
      = csTerminated ∧
    (exec okOS (fresh [])
      [Op.readData [0, 4, 0, 0], Op.requestClose, Op.requestClose, Op.readErr]).cxn.closeCalls
      = 2 := by
  decide

/-- C5, amended. RequestClose is idempotent: for every connection state,
calling it two or more times leaves the same connection (lifecycle state and
number of socket Close calls included) as calling it once. From Active it moves
the state to Terminating and calls Close on the socket exactly once; from
Terminating or Terminated it changes nothing. Together with the read loop's
exit the state ends Terminated, and the RequestClose calls have added exactly
one Close call to those the socket had seen before when the first call found
the connection Active, none otherwise; so on a connection whose socket nobody
had closed before, the socket is closed exactly once. -/
theorem RequestClose_idempotent :
    (∀ (cc : clientCxn) (n : Nat), 1 ≤ n → RequestClose^[n] cc = RequestClose cc) ∧
    (∀ cc : clientCxn, cc.state = csActive →
      (RequestClose cc).state = csTerminating ∧
      (RequestClose cc).cxn.closeCalls = cc.cxn.closeCalls + 1) ∧
    (∀ cc : clientCxn, cc.state ≠ csActive → RequestClose cc = cc) ∧
    (∀ (os : OS) (cc : clientCxn) (n : Nat) (r : ReadResult), 1 ≤ n → cc.state = csActive →
      (run os (RequestClose^[n] cc) [r]).state = csTerminated ∧
      (run os (RequestClose^[n] cc) [r]).cxn.closeCalls = cc.cxn.closeCalls + 1) ∧
    (∀ (os : OS) (cc : clientCxn) (n : Nat), cc.state ≠ csActive →
      (run os (RequestClose^[n] cc) [ReadResult.err]).state = csTerminated ∧
      (run os (RequestClose^[n] cc) [ReadResult.err]).cxn.closeCalls = cc.cxn.closeCalls) ∧
    (∀ (os : OS) (dl : diskLogger) (n : Nat) (r : ReadResult), 1 ≤ n →
      (run os (RequestClose^[n] (newClientCxn { closeCalls := 0 } dl)) [r]).state
        = csTerminated ∧
      (run os (RequestClose^[n] (newClientCxn { closeCalls := 0 } dl)) [r]).cxn.closeCalls
        = 1) := by
  have hact : ∀ (os : OS) (cc : clientCxn) (n : Nat) (r : ReadResult), 1 ≤ n →
      cc.state = csActive →
      (run os (RequestClose^[n] cc) [r]).state = csTerminated ∧
      (run os (RequestClose^[n] cc) [r]).cxn.closeCalls = cc.cxn.closeCalls + 1 := by
    intro os cc n r hn h
    rw [RequestClose_iterate cc n hn]
    simp [RequestClose, h, run, Conn.Read, Conn.Close]
  refine ⟨RequestClose_iterate, ?_, ?_, hact, ?_, ?_⟩
  · intro cc h
    simp [RequestClose, h, Conn.Close]
  · intro cc h
    simp [RequestClose, h]
  · intro os cc n h
    have hid : RequestClose^[n] cc = cc := by
      induction n with
      | zero => rfl
      | succ n ih =>
        rw [Function.iterate_succ_apply', ih]
        simp [RequestClose, h]
    rw [hid]
    simp [run, Conn.Read]
  · intro os dl n r hn
    exact hact os (newClientCxn { closeCalls := 0 } dl) n r hn rfl

/-- Witness for C5: three RequestClose calls on a fresh connection, then the
read loop's exit. -/
theorem RequestClose_idempotent_witness :
    RequestClose^[3] (fresh []) = RequestClose (fresh []) ∧
    ((run okOS (RequestClose^[3] (fresh [])) [ReadResult.data [1]]).state = csTerminated ∧
     (run okOS (RequestClose^[3] (fresh [])) [ReadResult.data [1]]).cxn.closeCalls
       = (fresh []).cxn.closeCalls + 1) :=
  ⟨RequestClose_idempotent.1 (fresh []) 3 (by decide),
   RequestClose_idempotent.2.2.2.1 okOS (fresh []) 3 (ReadResult.data [1]) (by decide) rfl⟩

/-- C6. StopServer returns an error exactly when the server was never started,
and then changes nothing; otherwise it returns nil, sets the terminating flag,
and launches the termination sequence only when no termination was in progress.
Over any number of StopServer calls at most one termination sequence is
launched, and none when one was already in progress. -/
theorem StopServer_contract :
    (∀ dls : diskLogServer, (StopServer dls).2 ≠ none ↔ dls.started = false) ∧
    (∀ dls : diskLogServer, dls.started = false →
      StopServer dls = (dls, some Error.notStarted)) ∧
    (∀ dls : diskLogServer, dls.started = true →
      (StopServer dls).2 = none ∧ (StopServer dls).1.terminating = true ∧
      (StopServer dls).1.started = true ∧
      (StopServer dls).1.terminations =
        dls.terminations + (if dls.terminating then 0 else 1)) ∧
    (∀ (dls : diskLogServer) (n : Nat),
      ((fun s => (StopServer s).1)^[n] dls).terminations ≤ dls.terminations + 1) ∧
    (∀ (dls : diskLogServer) (n : Nat), dls.terminating = true →
      ((fun s => (StopServer s).1)^[n] dls).terminations = dls.terminations) ∧
    (∀ n : Nat, ((fun s => (StopServer s).1)^[n] NewDiskLogServer).terminations = 0) ∧
    (∀ n : Nat, ((fun s => (StopServer s).1)^[n]
      { NewDiskLogServer with started := true }).terminations ≤ 1) := by
  have hflag : ∀ dls : diskLogServer, dls.started = true →
      (StopServer dls).1.terminating = true := by
    intro dls hs
    by_cases ht : dls.terminating = true <;> simp [StopServer, hs, ht]
  have hterm : ∀ (n : Nat) (dls : diskLogServer), dls.terminating = true →
      ((fun s => (StopServer s).1)^[n] dls).terminations = dls.terminations := by
    intro n
    induction n with
    | zero => intro dls _; rfl
    | succ n ih =>
      intro dls h
      rw [Function.iterate_succ_apply]
      by_cases hs : dls.started = true
      · rw [ih _ (hflag dls hs)]
        simp [StopServer, hs, h]
      · rw [show (StopServer dls).1 = dls by simp [StopServer, hs]]
        exact ih dls h
  have hnot : ∀ (n : Nat) (dls : diskLogServer), dls.started = false →
      (fun s => (StopServer s).1)^[n] dls = dls := by
    intro n
    induction n with
    | zero => intro dls _; rfl
    | succ n ih =>
      intro dls h
      rw [Function.iterate_succ_apply, show (StopServer dls).1 = dls by simp [StopServer, h]]
      exact ih dls h
  have hle : ∀ (dls : diskLogServer) (n : Nat),
      ((fun s => (StopServer s).1)^[n] dls).terminations ≤ dls.terminations + 1 := by
    intro dls n
    cases n with
    | zero => simp
    | succ n =>
      rw [Function.iterate_succ_apply]
      by_cases hs : dls.started = true
      · rw [hterm n _ (hflag dls hs)]
        by_cases ht : dls.terminating = true <;> simp [StopServer, hs, ht]
      · have hs1 : dls.started = false := by simpa using hs
        rw [show (StopServer dls).1 = dls by simp [StopServer, hs1], hnot n dls hs1]
        omega
  refine ⟨?_, ?_, ?_, hle, fun dls n h => hterm n dls h, ?_, ?_⟩
  · intro dls
    by_cases hs : dls.started = true <;> simp [StopServer, hs]
  · intro dls h
    simp [StopServer, h]
  · intro dls h
    by_cases ht : dls.terminating = true <;> simp [StopServer, h, ht]
  · intro n
    rw [hnot n _ rfl]
    rfl
  · intro n
    have := hle { NewDiskLogServer with started := true } n
    simpa [NewDiskLogServer] using this

/-- Witness for C6: a started server that is stopped twice launches one
termination sequence; a server never started returns the error. -/
theorem StopServer_contract_witness :
    StopServer NewDiskLogServer = (NewDiskLogServer, some Error.notStarted) ∧
    ((StopServer { started := true, terminating := false, terminations := 0 }).2 = none ∧
     (StopServer { started := true, terminating := false, terminations := 0 }).1.terminating
       = true ∧
     (StopServer { started := true, terminating := false, terminations := 0 }).1.started
       = true ∧
     (StopServer { started := true, terminating := false, terminations := 0 }).1.terminations
       = 0 + (if false = true then 0 else 1)) ∧
    ((fun s => (StopServer s).1)^[2]
      { started := true, terminating := true, terminations := 1 }).terminations = 1 :=
  ⟨StopServer_contract.2.1 NewDiskLogServer rfl,
   StopServer_contract.2.2.1 { started := true, terminating := false, terminations := 0 } rfl,
   StopServer_contract.2.2.2.2.1 { started := true, terminating := true, terminations := 1 } 2
     rfl⟩


theorem HasSuffix_newline (s : Bytes) :
    HasSuffix s [newline] = true ↔ s.getLast? = some newline := by
  unfold HasSuffix
  rw [List.isSuffixOf_iff_suffix, List.getLast?_eq_some_iff]
  constructor
  · rintro ⟨t, ht⟩; exact ⟨t, ht.symm⟩
  · rintro ⟨t, ht⟩; exact ⟨t, ht.symm⟩

theorem processMessage_open (os : OS) (dl : diskLogger) (logName logLine : Bytes)
    (hopen : os.pathJoin dl.basePath (logName ++ dotLog) ∈ dl.logs ∨
      os.openFile (os.pathJoin dl.basePath (logName ++ dotLog)) = true) :
    (processMessage os dl logName logLine).2 = none ∧
    (processMessage os dl logName logLine).1.written =
      dl.written ++ [(os.pathJoin dl.basePath (logName ++ dotLog),
        if HasSuffix logLine [newline] then logLine else logLine ++ [newline])] := by
  unfold processMessage
  cases hs : HasSuffix logLine [newline] <;> rcases hopen with h | h
  · simp [h]
  · by_cases hm : os.pathJoin dl.basePath (logName ++ dotLog) ∈ dl.logs
    · simp [hm]
    · simp [h, hm]
  · simp [h]
  · by_cases hm : os.pathJoin dl.basePath (logName ++ dotLog) ∈ dl.logs
    · simp [hm]
    · simp [h, hm]

/-- C7. When the log file can be opened (its handle is already in the map, or
the open succeeds), processMessage returns no error and makes exactly one
write, to the handle of `<basePath>/<logName>.log`, whose text is the message
itself when the message already ends with a newline and the message followed by
one newline otherwise; the written text always ends with a newline. -/
theorem processMessage_writes_line (os : OS) (dl : diskLogger) (logName logLine : Bytes)
    (hopen : os.pathJoin dl.basePath (logName ++ dotLog) ∈ dl.logs ∨
      os.openFile (os.pathJoin dl.basePath (logName ++ dotLog)) = true) :
    (processMessage os dl logName logLine).2 = none ∧
    (logLine.getLast? = some newline →
      (processMessage os dl logName logLine).1.written =
        dl.written ++ [(os.pathJoin dl.basePath (logName ++ dotLog), logLine)]) ∧
    (logLine.getLast? ≠ some newline →
      (processMessage os dl logName logLine).1.written =
        dl.written ++ [(os.pathJoin dl.basePath (logName ++ dotLog), logLine ++ [newline])]) ∧
    (∃ text : Bytes,
      (processMessage os dl logName logLine).1.written =
        dl.written ++ [(os.pathJoin dl.basePath (logName ++ dotLog), text)] ∧
      text.getLast? = some newline ∧ (text = logLine ∨ text = logLine ++ [newline])) := by
  have h := processMessage_open os dl logName logLine hopen
  refine ⟨h.1, ?_, ?_, ?_⟩
  · intro hl
    rw [h.2, if_pos ((HasSuffix_newline _).2 hl)]
  · intro hl
    rw [h.2, if_neg (fun hc => hl ((HasSuffix_newline _).1 hc))]
  · by_cases hl : logLine.getLast? = some newline
    · exact ⟨logLine, by rw [h.2, if_pos ((HasSuffix_newline _).2 hl)], hl, Or.inl rfl⟩
    · exact ⟨logLine ++ [newline],
        by rw [h.2, if_neg (fun hc => hl ((HasSuffix_newline _).1 hc))],
        List.getLast?_concat _, Or.inr rfl⟩

/-- Witness for C7: the message `"Hi"` for the log `"app"` on a fresh logger. -/
theorem processMessage_writes_line_witness :
    ([72, 105] : Bytes).getLast? ≠ some newline ∧
    (processMessage okOS (newDiskLogger []) sApp [72, 105]).1.written =
      (newDiskLogger []).written ++
        [(okOS.pathJoin (newDiskLogger []).basePath (sApp ++ dotLog), [72, 105] ++ [newline])] :=
  ⟨by decide,
   (processMessage_writes_line okOS (newDiskLogger []) sApp [72, 105] (Or.inr rfl)).2.2.1
     (by decide)⟩

/-- C10: the code never signals the channel `closed`. On every execution of the
read loop the channel is as unsignalled after it as before; on a new connection
whose read loop exits (state Terminated) the receive in a WaitForClose that
found the state Active cannot complete, before or after the exit. -/
theorem run_never_signals_closed :
    (∀ (os : OS) (cc : clientCxn) (rs : List ReadResult),
      (run os cc rs).closed = cc.closed) ∧
    (∀ (os : OS) (cxn : Conn) (dl : diskLogger) (rs : List ReadResult),
      chanReady (run os (newClientCxn cxn dl) rs) = false) ∧
    WaitForClose (fresh []) = false ∧
    (run okOS (fresh []) [ReadResult.err]).state = csTerminated ∧
    (run okOS (fresh []) [ReadResult.err]).closed = 0 ∧
    chanReady (run okOS (fresh []) [ReadResult.err]) = false ∧
    WaitForClose (run okOS (fresh []) [ReadResult.err]) = true := by
  refine ⟨run_closed, ?_, by decide, by decide, by decide, by decide, by decide⟩
  intro os cxn dl rs
  simp [chanReady, run_closed, newClientCxn]


theorem RequestClose_requested (c : clientCxn) : IsCloseRequested (RequestClose c) = true := by
  unfold RequestClose IsCloseRequested
  split
  · rfl
  · rename_i h; simpa using h

theorem processAllClients_request (cxns : List clientCxn) (i : Nat) :
    ∃ hits, processAllClients (fun c => some (RequestClose c)) cxns i =
      some (cxns.map RequestClose, hits) := by
  induction cxns generalizing i with
  | nil => exact ⟨[], rfl⟩
  | cons c cs ih =>
    obtain ⟨hits, hh⟩ := ih (i + 1)
    by_cases hc : IsCloseRequested c = true
    · refine ⟨hits, ?_⟩
      have hid : RequestClose c = c := by
        unfold IsCloseRequested at hc
        unfold RequestClose
        rw [if_neg (by simpa using hc)]
      simp [processAllClients, hc, hh, hid]
    · refine ⟨i :: hits, ?_⟩
      simp [processAllClients, hc, hh]

theorem processAllClients_skip (op : clientCxn → Option clientCxn) (cxns : List clientCxn)
    (i : Nat) (h : ∀ c ∈ cxns, IsCloseRequested c = true) :
    processAllClients op cxns i = some (cxns, []) := by
  induction cxns generalizing i with
  | nil => rfl
  | cons c cs ih =>
    have hc := h c (List.mem_cons_self _ _)
    simp [processAllClients, hc, ih (i + 1) (fun x hx => h x (List.mem_cons_of_mem _ hx))]

/-- C4: phase 2 of terminateAll calls WaitForClose on no connection. For every
registry terminateAll returns, having waited for nobody, and leaves every
connection in the state RequestClose gave it: a connection that was Active is
Terminating, not Terminated, when terminateAll returns. On a registry of one
new connection: RequestClose is called on it, WaitForClose is not, and its
state at return is Terminating. -/
theorem terminateAll_waits_for_nobody :
    (∀ ccs : clientCxns, ∃ t, terminateAll ccs = some t ∧ t.waited = [] ∧
      t.conns.map (fun c => c.state) = ccs.cxns.map (fun c => (RequestClose c).state)) ∧
    (terminateAll { cxns := [fresh []] }).map
      (fun t => (t.requested, t.waited, t.conns.map (fun c => c.state)))
        = some ([0], [], [csTerminating]) := by
  refine ⟨?_, by decide⟩
  intro ccs
  obtain ⟨hits, hh⟩ := processAllClients_request ccs.cxns 0
  have hskip := processAllClients_skip (fun cxn => if WaitForClose cxn then some cxn else none)
    (ccs.cxns.map RequestClose) 0 (by
      intro c hc
      obtain ⟨x, _, rfl⟩ := List.mem_map.1 hc
      exact RequestClose_requested x)
  refine ⟨_, by simp only [terminateAll, hh, hskip]; rfl, rfl, ?_⟩
  simp [List.map_map, Function.comp_def]

/-- C3. Assuming the disk logger's append succeeds, `consume` returns an error
exactly when (a) at least 4 bytes are buffered and the big-endian length N of
the first 4 bytes exceeds 131072 (the error names the length), or (b)
N <= 131072, at least 4+N bytes are buffered and bytes [4, 4+N) hold no tab
(the schema error). Whenever it returns an error it consumes 0 bytes and leaves
the connection and its disk logger untouched (no record is forwarded), and the
read loop's inner loop calls Close on the socket once and stops. N = 131072 is
not rejected for size, and a short buffer (fewer than 4 bytes, or fewer than
4+N bytes with N <= 131072) gives no error and no progress. -/
theorem consume_rejects_exactly (os : OS) (cc : clientCxn)
    (hok : ∀ n l, (processMessage os cc.dl n l).2 = none) :
    ((consume os cc).2.2 ≠ none ↔
      (4 ≤ cc.received.length ∧ 131072 < Uint32 (cc.received.take 4)) ∨
      (Uint32 (cc.received.take 4) ≤ 131072 ∧
        4 + Uint32 (cc.received.take 4) ≤ cc.received.length ∧
        tab ∉ (cc.received.take (4 + Uint32 (cc.received.take 4))).drop 4)) ∧
    ((consume os cc).2.2 = some (Error.invalidLength (Uint32 (cc.received.take 4))) ↔
      (4 ≤ cc.received.length ∧ 131072 < Uint32 (cc.received.take 4))) ∧
    ((consume os cc).2.2 = some Error.schema ↔
      (Uint32 (cc.received.take 4) ≤ 131072 ∧
        4 + Uint32 (cc.received.take 4) ≤ cc.received.length ∧
        tab ∉ (cc.received.take (4 + Uint32 (cc.received.take 4))).drop 4)) ∧
    ((consume os cc).2.2 ≠ none →
      (consume os cc).2.1 = 0 ∧ (consume os cc).1 = cc ∧
      drain os cc = { cc with cxn := cc.cxn.Close }) ∧
    (Uint32 (cc.received.take 4) = 131072 →
      ∀ size, (consume os cc).2.2 ≠ some (Error.invalidLength size)) ∧
    (cc.received.length < 4 ∨
      (Uint32 (cc.received.take 4) ≤ 131072 ∧
        cc.received.length < 4 + Uint32 (cc.received.take 4)) →
      (consume os cc).2.2 = none ∧ (consume os cc).2.1 = 0) := by
  have hmax : cMaxMessageSize = 131072 := rfl
  have hdrain : (consume os cc).2.2 ≠ none →
      (consume os cc).2.1 = 0 ∧ (consume os cc).1 = cc →
      drain os cc = { cc with cxn := cc.cxn.Close } := by
    intro he h
    unfold drain
    rw [consumeLoop_succ, if_pos h.1, h.2]
    cases hc : (consume os cc).2.2 with
    | none => exact absurd hc he
    | some e => rfl
  rcases consume_cases os cc hok with ⟨h1, e⟩ | ⟨h1, h2, e⟩ | ⟨h1, h2, h3, e⟩ |
    ⟨h1, h2, h3, h4, e⟩ | ⟨h1, h2, h3, h4, e⟩
  · refine ⟨?_, ?_, ?_, ?_, ?_, ?_⟩
    · rw [e]; simp; omega
    · rw [e]; simp; omega
    · rw [e]; simp; omega
    · intro he; rw [e] at he; simp at he
    · intro _ size; rw [e]; simp
    · intro _; rw [e]; simp
  · rw [hmax] at h2
    refine ⟨?_, ?_, ?_, ?_, ?_, ?_⟩
    · rw [e]; simp; left; exact ⟨h1, h2⟩
    · rw [e]; simp; exact ⟨h1, h2⟩
    · rw [e]; simp; omega
    · intro he
      exact ⟨by rw [e], by rw [e], hdrain he ⟨by rw [e], by rw [e]⟩⟩
    · intro h; omega
    · intro h; omega
  · rw [hmax] at h2
    refine ⟨?_, ?_, ?_, ?_, ?_, ?_⟩
    · rw [e]; simp; omega
    · rw [e]; simp; omega
    · rw [e]; simp; omega
    · intro he; rw [e] at he; simp at he
    · intro _ size; rw [e]; simp
    · intro _; rw [e]; simp
  · rw [hmax] at h2
    refine ⟨?_, ?_, ?_, ?_, ?_, ?_⟩
    · rw [e]; simp; right; exact ⟨h2, h3, h4⟩
    · rw [e]; simp; omega
    · rw [e]; simp; exact ⟨h2, h3, h4⟩
    · intro he
      exact ⟨by rw [e], by rw [e], hdrain he ⟨by rw [e], by rw [e]⟩⟩
    · intro _ size; rw [e]; simp
    · intro h; omega
  · rw [hmax] at h2
    refine ⟨?_, ?_, ?_, ?_, ?_, ?_⟩
    · rw [e]; simp; constructor
      · omega
      · intro _ _; exact h4
    · rw [e]; simp; omega
    · rw [e]; simp; intro _ _; exact h4
    · intro he; rw [e] at he; simp at he
    · intro _ size; rw [e]; simp
    · intro h; omega


/-- Witness for C3: a buffer holding the length `0x00040000` is rejected, and
the read loop closes the socket. -/
theorem consume_rejects_exactly_witness :
    (∀ n l, (processMessage okOS ({ fresh [] with received := [0, 4, 0, 0] } : clientCxn).dl
      n l).2 = none) ∧
    ((consume okOS { fresh [] with received := [0, 4, 0, 0] }).2.2 ≠ none →
      (consume okOS { fresh [] with received := [0, 4, 0, 0] }).2.1 = 0 ∧
      (consume okOS { fresh [] with received := [0, 4, 0, 0] }).1
        = { fresh [] with received := [0, 4, 0, 0] } ∧
      drain okOS { fresh [] with received := [0, 4, 0, 0] }
        = { ({ fresh [] with received := [0, 4, 0, 0] } : clientCxn) with
            cxn := ({ fresh [] with received := [0, 4, 0, 0] } : clientCxn).cxn.Close }) :=
  ⟨processMessage_ok okOS (fun _ => rfl) _,
   (consume_rejects_exactly okOS { fresh [] with received := [0, 4, 0, 0] }
     (processMessage_ok okOS (fun _ => rfl) _)).2.2.2.1⟩

/-- Every body that holds a tab is `logName + "\t" + message` for the log name
before its first tab. -/
theorem bodies_records (bodies : List Bytes)
    (hv : ∀ b ∈ bodies, b.length ≤ 131072 ∧ tab ∈ b) :
    ∃ rs : List (Bytes × Bytes),
      (∀ r ∈ rs, tab ∉ r.1 ∧ (body r).length ≤ 131072) ∧
      (bodies.map frame).flatten = encode rs := by
  induction bodies with
  | nil => exact ⟨[], by simp, by simp [encode]⟩
  | cons b bs ih =>
    obtain ⟨rs, h1, h2⟩ := ih (fun x hx => hv x (List.mem_cons_of_mem _ hx))
    obtain ⟨hl, ht⟩ := hv b (List.mem_cons_self _ _)
    obtain ⟨n, m, e, hn⟩ := List.eq_append_cons_of_mem ht
    have hb : body (n, m) = b := by simp [body, e]
    refine ⟨(n, m) :: rs, ?_, ?_⟩
    · intro r hr
      rcases List.mem_cons.1 hr with rfl | hr
      · exact ⟨hn, by rw [hb]; exact hl⟩
      · exact h1 r hr
    · rw [encode_cons, hb, List.map_cons, List.flatten_cons, h2]

/-- The read loop of a new connection on a stream of valid records, cut into
reads in any way. -/
theorem run_new_frames (os : OS) (hos : ∀ p, os.openFile p = true) (dl : diskLogger)
    (rs : List (Bytes × Bytes)) (hv : ∀ r ∈ rs, tab ∉ r.1 ∧ (body r).length ≤ 131072)
    (reads : List Bytes) (hsplit : reads.flatten = encode rs) :
    run os (newClientCxn { closeCalls := 0 } dl) (reads.map ReadResult.data) =
      { newClientCxn { closeCalls := 0 } dl with dl := logAll os dl rs } := by
  have := run_frames os hos reads rs hv (newClientCxn { closeCalls := 0 } dl) rfl (Or.inl rfl)
    (by simpa [newClientCxn] using hsplit)
  rw [this]
  rfl

/-- C1. For every byte stream that is a concatenation of valid frames (4-byte
big-endian length N <= 131072, then N body bytes holding a tab) and every way
of cutting the stream into socket reads (one byte per read and empty reads
included), the read loop of a new connection ends in the same state, and in
particular has forwarded the same sequence of (logName, message) pairs to the
disk logger, as when the whole stream arrives in a single read; every append
is assumed to succeed. -/
theorem run_fragmentation_invariant (os : OS) (hos : ∀ p, os.openFile p = true)
    (dl : diskLogger) (bodies : List Bytes)
    (hvalid : ∀ b ∈ bodies, b.length ≤ 131072 ∧ tab ∈ b)
    (reads : List Bytes) (hsplit : reads.flatten = (bodies.map frame).flatten) :
    run os (newClientCxn { closeCalls := 0 } dl) (reads.map ReadResult.data) =
      run os (newClientCxn { closeCalls := 0 } dl)
        [ReadResult.data (bodies.map frame).flatten] ∧
    (run os (newClientCxn { closeCalls := 0 } dl) (reads.map ReadResult.data)).dl.calls =
      (run os (newClientCxn { closeCalls := 0 } dl)
        [ReadResult.data (bodies.map frame).flatten]).dl.calls := by
  obtain ⟨rs, hv, he⟩ := bodies_records bodies hvalid
  have h1 := run_new_frames os hos dl rs hv reads (by rw [hsplit, he])
  have h2 := run_new_frames os hos dl rs hv [(bodies.map frame).flatten] (by simp [he])
  simp only [List.map_cons, List.map_nil] at h2
  rw [h1, h2]
  exact ⟨rfl, rfl⟩

/-- Witness for C1: the frame of `"app\tHi\n"` followed by the frame of
`"\t"`, read one piece of 6, one of 1 and one of 9 bytes. -/
theorem run_fragmentation_invariant_witness :
    (∀ b ∈ [sAppHi, [tab]], b.length ≤ 131072 ∧ tab ∈ b) ∧
    ([[0, 0, 0, 7, 97, 112], [112], [9, 72, 105, 10, 0, 0, 0, 1, 9]] : List Bytes).flatten
      = ([sAppHi, [tab]].map frame).flatten ∧
    (run okOS (newClientCxn { closeCalls := 0 } (newDiskLogger []))
      (([[0, 0, 0, 7, 97, 112], [112], [9, 72, 105, 10, 0, 0, 0, 1, 9]] : List Bytes).map
        ReadResult.data)).dl.calls =
      (run okOS (newClientCxn { closeCalls := 0 } (newDiskLogger []))
        [ReadResult.data ([sAppHi, [tab]].map frame).flatten]).dl.calls :=
  ⟨by decide, by decide,
   (run_fragmentation_invariant okOS (fun _ => rfl) (newDiskLogger []) [sAppHi, [tab]]
     (by decide) [[0, 0, 0, 7, 97, 112], [112], [9, 72, 105, 10, 0, 0, 0, 1, 9]]
     (by decide)).2⟩

/-- C2. Decoding undoes the wire encoding, in order. For every list of records
(logName, message) whose logName holds no tab and whose body
logName + "\t" + message is at most 131072 bytes long, the read loop of a new
connection fed the concatenation of the frames
uint32-big-endian(len(body)) || body, in a single read or cut into reads in
any way, hands to the disk logger exactly these records, each once and in the
original order, and leaves the receive buffer empty, with the connection still
Active and its socket open; on a buffer that starts with such a frame `consume`
reports exactly 4+N bytes. Every append is assumed to succeed. -/
theorem run_decodes_encoding (os : OS) (hos : ∀ p, os.openFile p = true)
    (dl : diskLogger) (rs : List (Bytes × Bytes))
    (hv : ∀ r ∈ rs, tab ∉ r.1 ∧ (r.1 ++ tab :: r.2).length ≤ 131072)
    (reads : List Bytes) (hsplit : reads.flatten = encode rs) :
    (run os (newClientCxn { closeCalls := 0 } dl) [ReadResult.data (encode rs)]).dl.calls
      = dl.calls ++ rs ∧
    (run os (newClientCxn { closeCalls := 0 } dl) [ReadResult.data (encode rs)]).received
      = [] ∧
    (run os (newClientCxn { closeCalls := 0 } dl) (reads.map ReadResult.data)).dl.calls
      = dl.calls ++ rs ∧
    (run os (newClientCxn { closeCalls := 0 } dl) (reads.map ReadResult.data)).received
      = [] ∧
    (run os (newClientCxn { closeCalls := 0 } dl) (reads.map ReadResult.data)).state
      = csActive ∧
    (run os (newClientCxn { closeCalls := 0 } dl) (reads.map ReadResult.data)).cxn.closeCalls
      = 0 ∧
    (∀ (cc : clientCxn) (r : Bytes × Bytes) (rest : Bytes), r ∈ rs →
      cc.received = frame (r.1 ++ tab :: r.2) ++ rest →
      (consume os cc).2 = (4 + (r.1 ++ tab :: r.2).length, none)) := by
  have h1 := run_new_frames os hos dl rs hv reads hsplit
  have h2 := run_new_frames os hos dl rs hv [encode rs] (by simp)
  simp only [List.map_cons, List.map_nil] at h2
  rw [h1, h2]
  refine ⟨logAll_calls os dl rs, rfl, logAll_calls os dl rs, rfl, rfl, rfl, ?_⟩
  intro cc r rest hr hrec
  have := consume_frame os hos cc r rest (hv r hr).1 (hv r hr).2 hrec
  rw [this, Nat.add_comm]
  rfl

/-- Witness for C2: the records ("app", "Hi\n") and ("", ""), one byte short of
the end in the first read. -/
theorem run_decodes_encoding_witness :
    (∀ r ∈ [(sApp, sHi), (([] : Bytes), ([] : Bytes))],
      tab ∉ r.1 ∧ (r.1 ++ tab :: r.2).length ≤ 131072) ∧
    ([[0, 0, 0, 7, 97, 112, 112, 9, 72, 105, 10, 0, 0, 0, 1], [9]] : List Bytes).flatten
      = encode [(sApp, sHi), ([], [])] ∧
    (run okOS (newClientCxn { closeCalls := 0 } (newDiskLogger []))
      (([[0, 0, 0, 7, 97, 112, 112, 9, 72, 105, 10, 0, 0, 0, 1], [9]] : List Bytes).map
        ReadResult.data)).dl.calls
      = (newDiskLogger []).calls ++ [(sApp, sHi), ([], [])] :=
  ⟨by decide, by decide,
   (run_decodes_encoding okOS (fun _ => rfl) (newDiskLogger []) [(sApp, sHi), ([], [])]
     (by decide) [[0, 0, 0, 7, 97, 112, 112, 9, 72, 105, 10, 0, 0, 0, 1], [9]]
     (by decide)).2.2.1⟩


/-- C9, as stated, fails. The body `"app\tHi\n"` is seven bytes long, so after
`00 00 00 09` the frame is two bytes short: the read loop waits, decodes no
record and writes nothing. Read with its escapes as nine literal characters the
body holds no tab: the frame is rejected and the socket closed, again with no
record and no write, in one read of 13 bytes as in two reads of 6 and 7. -/
theorem scenario_length_nine_decodes_nothing :
    (run okOS (fresh []) [ReadResult.data ([0, 0, 0, 9] ++ sAppHi)]).dl.calls = [] ∧
    (run okOS (fresh []) [ReadResult.data ([0, 0, 0, 9] ++ sAppHi)]).dl.written = [] ∧
    (run okOS (fresh []) [ReadResult.data ([0, 0, 0, 9] ++ sAppHi)]).received
      = [0, 0, 0, 9] ++ sAppHi ∧
    ([0, 0, 0, 9] ++ sAppHiRaw).length = 13 ∧
    (run okOS (fresh []) [ReadResult.data ([0, 0, 0, 9] ++ sAppHiRaw)]).dl.calls = [] ∧
    (run okOS (fresh []) [ReadResult.data ([0, 0, 0, 9] ++ sAppHiRaw)]).dl.written = [] ∧
    (run okOS (fresh []) [ReadResult.data ([0, 0, 0, 9] ++ sAppHiRaw)]).cxn.closeCalls = 1 ∧
    (run okOS (fresh []) [ReadResult.data (([0, 0, 0, 9] ++ sAppHiRaw).take 6),
      ReadResult.data (([0, 0, 0, 9] ++ sAppHiRaw).drop 6)]).dl.calls = [] ∧
    (run okOS (fresh []) [ReadResult.data (([0, 0, 0, 9] ++ sAppHiRaw).take 6),
      ReadResult.data (([0, 0, 0, 9] ++ sAppHiRaw).drop 6)]).dl.written = [] := by
  decide

/-- On a buffer that starts with a whole valid frame `consume` hands the record
to the disk logger, whatever the logger answers: it reports the frame's length
when the logger returns no error, and no progress with the logger's error
otherwise. -/
theorem consume_frame_any (os : OS) (cc : clientCxn)
    (r : Bytes × Bytes) (rest : Bytes) (hr : tab ∉ r.1) (hlen : (body r).length ≤ 131072)
    (hrec : cc.received = frame (body r) ++ rest) :
    consume os cc =
      ({ cc with dl := (processMessage os cc.dl r.1 r.2).1 },
       if (processMessage os cc.dl r.1 r.2).2 = none then (body r).length + 4 else 0,
       (processMessage os cc.dl r.1 r.2).2) := by
  have hN : Uint32 (cc.received.take 4) = (body r).length := by
    rw [hrec, frame, List.append_assoc]
    exact Uint32_PutUint32 _ (by omega) _
  have hs : (cc.received.take (4 + (body r).length)).drop 4 = body r := by
    rw [hrec, frame, List.append_assoc, Nat.add_comm]
    simp [PutUint32]
  have hl : ¬ cc.received.length < 4 + (body r).length := by
    rw [hrec]; simp [frame_length]
  have hl4 : ¬ cc.received.length < 4 := by omega
  have hI := Index_body r hr
  have hmax : ¬ (body r).length > cMaxMessageSize := by
    simp only [cMaxMessageSize]; omega
  unfold consume
  simp only [hN, hs, hl, hl4, hmax, hI, if_false, Int.toNat_ofNat, body_take, body_drop]
  cases (processMessage os cc.dl r.1 r.2).2 <;> simp

/-- When `consume` waits for more data the inner loop of `run` stops at once and
leaves the connection as it is. -/
theorem drain_wait (os : OS) (cc : clientCxn) (h : consume os cc = (cc, 0, none)) :
    drain os cc = cc := by
  unfold drain
  rw [consumeLoop_succ, h]
  simp

/-- The inner loop of `run` on a buffer that holds exactly one valid frame: the
record is handed to the disk logger once. -/
theorem drain_one_frame_calls (os : OS) (cc : clientCxn) (r : Bytes × Bytes)
    (hr : tab ∉ r.1) (hlen : (body r).length ≤ 131072)
    (hrec : cc.received = frame (body r) ++ []) :
    (drain os cc).dl.calls = cc.dl.calls ++ [r] := by
  unfold drain
  rw [consumeLoop_succ, consume_frame_any os cc r [] hr hlen hrec]
  cases hp : (processMessage os cc.dl r.1 r.2).2 with
  | some e =>
    simp only [reduceCtorEq, if_false, if_true, Option.isSome_some]
    exact processMessage_calls os cc.dl r.1 r.2
  | none =>
    have hne : ¬ ((body r).length + 4 = 0) := by omega
    simp only [if_true, hne, if_false]
    have hlen2 : cc.received.length = (body r).length + 4 := by
      rw [hrec]; simp [frame_length]; omega
    obtain ⟨k, hk⟩ : ∃ k, cc.received.length = k + 1 := ⟨(body r).length + 3, by omega⟩
    rw [hk, consumeLoop_succ]
    have hcons : ∀ c : clientCxn, c.received = cc.received.drop ((body r).length + 4) →
        consume os c = (c, 0, none) := by
      intro c hc
      have : c.received.length < 4 := by
        rw [hc, List.length_drop]; omega
      simp [consume, this]
    rw [hcons _ rfl]
    simp only [if_true, Option.isSome_none]
    exact processMessage_calls os cc.dl r.1 r.2

/-- C9, amended. When a client sends the four bytes `00 00 00 07` followed by
the seven-byte body `"app\tHi\n"` (11 bytes in all), the read loop decodes one
record with log name `"app"` and message `"Hi\n"` and hands it to the disk
logger's append exactly once; the same 11 bytes sent in two writes of 6 and 5
bytes give the identical result. This holds whatever the disk logger does with
the record. -/
theorem scenario_app_hi (os : OS) (dl : diskLogger) :
    (run os (newClientCxn { closeCalls := 0 } dl)
      [ReadResult.data ([0, 0, 0, 7] ++ sAppHi)]).dl.calls = dl.calls ++ [(sApp, sHi)] ∧
    run os (newClientCxn { closeCalls := 0 } dl)
      [ReadResult.data (([0, 0, 0, 7] ++ sAppHi).take 6),
       ReadResult.data (([0, 0, 0, 7] ++ sAppHi).drop 6)]
      = run os (newClientCxn { closeCalls := 0 } dl)
          [ReadResult.data ([0, 0, 0, 7] ++ sAppHi)] ∧
    (run os (newClientCxn { closeCalls := 0 } dl)
      [ReadResult.data (([0, 0, 0, 7] ++ sAppHi).take 6),
       ReadResult.data (([0, 0, 0, 7] ++ sAppHi).drop 6)]).dl.calls
        = dl.calls ++ [(sApp, sHi)] ∧
    ([0, 0, 0, 7] ++ sAppHi).length = 11 ∧
    (([0, 0, 0, 7] ++ sAppHi).take 6).length = 6 ∧
    (([0, 0, 0, 7] ++ sAppHi).drop 6).length = 5 := by
  have hread : ∀ r : ReadResult, ({ closeCalls := 0 } : Conn).Read r = r := fun r => rfl
  have hone : run os (newClientCxn { closeCalls := 0 } dl)
      [ReadResult.data ([0, 0, 0, 7] ++ sAppHi)] =
      drain os { newClientCxn { closeCalls := 0 } dl with
        received := [0, 0, 0, 7] ++ sAppHi } := by
    simp only [run, newClientCxn, hread, List.nil_append]
  have hwait : drain os { newClientCxn { closeCalls := 0 } dl with
      received := ([0, 0, 0, 7] ++ sAppHi).take 6 } =
      { newClientCxn { closeCalls := 0 } dl with
        received := ([0, 0, 0, 7] ++ sAppHi).take 6 } := by
    apply drain_wait
    exact consume_partial os _ sAppHi (([0, 0, 0, 7] ++ sAppHi).drop 6) []
      (by decide) rfl (show (6 : Nat) < 11 by decide)
  have htwo : run os (newClientCxn { closeCalls := 0 } dl)
      [ReadResult.data (([0, 0, 0, 7] ++ sAppHi).take 6),
       ReadResult.data (([0, 0, 0, 7] ++ sAppHi).drop 6)] =
      drain os { newClientCxn { closeCalls := 0 } dl with
        received := [0, 0, 0, 7] ++ sAppHi } := by
    have h1 : run os (newClientCxn { closeCalls := 0 } dl)
        [ReadResult.data (([0, 0, 0, 7] ++ sAppHi).take 6),
         ReadResult.data (([0, 0, 0, 7] ++ sAppHi).drop 6)] =
        run os (drain os { newClientCxn { closeCalls := 0 } dl with
          received := ([0, 0, 0, 7] ++ sAppHi).take 6 })
          [ReadResult.data (([0, 0, 0, 7] ++ sAppHi).drop 6)] := by
      simp only [run, newClientCxn, hread, List.nil_append]
    rw [h1, hwait]
    simp only [run, newClientCxn, hread, List.take_append_drop]
  have hcalls : (drain os { newClientCxn { closeCalls := 0 } dl with
      received := [0, 0, 0, 7] ++ sAppHi }).dl.calls = dl.calls ++ [(sApp, sHi)] :=
    drain_one_frame_calls os _ (sApp, sHi) (by decide) (by decide) rfl
  refine ⟨?_, ?_, ?_, by decide, by decide, by decide⟩
  · rw [hone]; exact hcalls
  · rw [hone, htwo]
  · rw [htwo]; exact hcalls

end disklog
